import Mathlib

/-!
Shallow embedding of the flutter-deadline GitHub action core
(src/action/src/slack.ts, src/action/src/parser.ts, src/action/src/types.ts,
src/action/src/blame.ts's extractGitHubUsername), with theorems checking the
specification's claims about it.

Conventions of the embedding:
* JS strings are `String` or `List Char` (`String` in Lean is a list of
  characters, so the two are interchangeable via `String.mk` / `String.data`).
* JS `undefined`-able values are `Option`; JS truthiness of a string value is
  `jsTruthyS` (`undefined` and `""` are falsy).
* The source's regular expressions are transcribed one-to-one into a small
  regular-expression syntax `RE` whose backtracking matcher `matchRE`
  enumerates candidate matches in the JS engine's priority order (ordered
  alternation, greedy and lazy repetition of character classes).
* JS `Date` is modelled by the calendar fields (`getFullYear`, `getMonth`,
  `getDate`) it reports; `jsTime` is the epoch timestamp of the local calendar
  midnight `new Date(y, m0, d).getTime()` with the local timezone modelled as
  a fixed offset (day differences are unaffected by the offset).
-/

/-- Character test for the regex class `\s` (and JS `trim`): whitespace. -/
def isWsJS (c : Char) : Bool := c.isWhitespace

/-- Character test for the regex class `\d`: a decimal digit. -/
def isDigitJS (c : Char) : Bool := c.isDigit

/-- Character test for the regex class `\w`: letters, digits, underscore. -/
def isWordJS (c : Char) : Bool := c.isAlphanum || c == '_'

/-- The character `{`. -/
def obrace : Char := Char.ofNat 123

/-- The character `}`. -/
def cbrace : Char := Char.ofNat 125

/-- The character `'` (single quote). -/
def squote : Char := Char.ofNat 39

/-- The character `"` (double quote). -/
def dquote : Char := Char.ofNat 34

/-- JS truthiness of a possibly-undefined string: `undefined` and `""` are
falsy, every other string is truthy. -/
def jsTruthyS (s : Option String) : Bool :=
  match s with
  | some t => !(t == "")
  | none => false

/-- JS truthiness of a possibly-undefined string held as a character list. -/
def jsTruthyL (s : Option (List Char)) : Bool :=
  match s with
  | some t => !t.isEmpty
  | none => false

/-- Regular-expression syntax covering the constructs the source's patterns
use: character classes, concatenation, ordered alternation, greedy and lazy
star over a character class, capture groups, and the end-of-string anchor. -/
inductive RE where
  | eps : RE
  | cls : (Char → Bool) → RE
  | cat : RE → RE → RE
  | alt : RE → RE → RE
  | starG : (Char → Bool) → RE
  | starL : (Char → Bool) → RE
  | grp : Nat → RE → RE
  | eos : RE

/-- Captured groups of a regex match: group number paired with captured text. -/
abbrev Caps := List (Nat × List Char)

/-- Remainders after a greedy star of the class `p`, longest consumption
first (the JS engine's backtracking order for `p*`). -/
def starGreedy (p : Char → Bool) : List Char → List (List Char)
  | [] => [[]]
  | c :: r => if p c then starGreedy p r ++ [c :: r] else [c :: r]

/-- Remainders after a lazy star of the class `p`, shortest consumption
first (the JS engine's backtracking order for `p*?`). -/
def starLazy (p : Char → Bool) : List Char → List (List Char)
  | [] => [[]]
  | c :: r => (c :: r) :: (if p c then starLazy p r else [])

/-- All ways a regex can match a prefix of the input, as (remaining suffix,
captures), in the JS backtracking engine's priority order; its head is the
match the JS engine reports. -/
def matchRE : RE → List Char → List (List Char × Caps)
  | .eps, s => [(s, [])]
  | .eos, s => if s.isEmpty then [(s, [])] else []
  | .cls p, s =>
    match s with
    | [] => []
    | c :: r => if p c then [(r, [])] else []
  | .cat a b, s =>
    (matchRE a s).flatMap (fun pr => (matchRE b pr.1).map (fun qr => (qr.1, pr.2 ++ qr.2)))
  | .alt a b, s => matchRE a s ++ matchRE b s
  | .starG p, s => (starGreedy p s).map (fun r => (r, []))
  | .starL p, s => (starLazy p s).map (fun r => (r, []))
  | .grp n a, s =>
    (matchRE a s).map (fun pr => (pr.1, (n, s.take (s.length - pr.1.length)) :: pr.2))

/-- Group capture lookup, JS `match[n]` (absent group gives `undefined`). -/
def capGet (caps : Caps) (n : Nat) : Option (List Char) :=
  (caps.find? (fun pr => pr.1 == n)).map (fun pr => pr.2)

/-- The JS engine's match of a regex anchored at the start of the input:
consumed length and captures of the highest-priority match, if any. -/
def matchAnchored (re : RE) (s : List Char) : Option (Nat × Caps) :=
  match matchRE re s with
  | [] => none
  | pr :: _ => some (s.length - pr.1.length, pr.2)

/-- The JS engine's unanchored search: the leftmost position admitting a
match, returning (start index, match length, captures). -/
def searchRE (re : RE) : List Char → Nat → Option (Nat × Nat × Caps)
  | [], i => (matchAnchored re []).map (fun pr => (i, pr.1, pr.2))
  | s@(_ :: r), i =>
    match matchAnchored re s with
    | some pr => some (i, pr.1, pr.2)
    | none => searchRE re r (i + 1)

/-- A literal string as a regex. -/
def reLit : List Char → RE
  | [] => .eps
  | c :: cs => .cat (.cls (fun x => x == c)) (reLit cs)

/-- Sequencing of a list of regexes. -/
def reSeq (l : List RE) : RE := l.foldr .cat .eps

/-- A regex matching nothing (used as the base of alternation lists). -/
def reNone : RE := .cls (fun _ => false)

/-- Ordered alternation of a list of regexes. -/
def reAlts (l : List RE) : RE := l.foldr .alt reNone

/-- Greedy `?` (option) on a regex. -/
def reOpt (a : RE) : RE := .alt a .eps

/-- Greedy `+` on a character class. -/
def rePlus (p : Char → Bool) : RE := .cat (.cls p) (.starG p)

/-- Greedy `\s*`. -/
def wsStar : RE := .starG isWsJS

/-- Greedy `\s+`. -/
def wsPlus : RE := rePlus isWsJS

/-- A sanity example of the matcher (greedy digits). -/
example : matchAnchored (rePlus isDigitJS) "12a".data = some (2, []) := by decide

/-- A sanity example of capture groups. -/
example : matchAnchored (.grp 1 (rePlus isDigitJS)) "12a".data
    = some (2, [(1, [Char.ofNat 49, Char.ofNat 50])]) := by decide

/-! ## JS Date model (calendar fields and epoch time) -/

/-- A JS `Date` in this pipeline, recorded by the calendar fields the code
reads from it: `getFullYear()`, `getMonth()` (0-based), `getDate()`. -/
structure JSDate where
  year : Int
  month0 : Int
  day : Int
deriving DecidableEq

/-- Days since the epoch 1970-01-01 of the civil date (y, m, d) with
`1 ≤ m ≤ 12` (standard civil-from-days arithmetic on the proleptic
Gregorian calendar). -/
def daysFromCivil (y m d : Int) : Int :=
  let y1 := if m ≤ 2 then y - 1 else y
  let era := y1.fdiv 400
  let yoe := y1 - era * 400
  let mp := (m + 9).emod 12
  let doy := (153 * mp + 2).fdiv 5 + d - 1
  let doe := yoe * 365 + yoe.fdiv 4 - yoe.fdiv 100 + doy
  era * 146097 + doe - 719468

/-- Epoch milliseconds of `new Date(year, month0, day).getTime()`: the local
midnight of the (month- and day-normalized) calendar date. JS normalizes an
out-of-range `month0` into the year and an out-of-range `day` by adding
`day - 1` days to the first of the month, which is what this computes; the
local timezone is modelled as a fixed offset, which cancels in every day
difference the code takes. -/
def jsTime (dt : JSDate) : Int :=
  let ya := dt.year + dt.month0.fdiv 12
  let mn := dt.month0.emod 12 + 1
  (daysFromCivil ya mn 1 + (dt.day - 1)) * 86400000

/-- Embeds `getDaysDifference` (slack.ts): both dates are rebuilt at their
local calendar midnight and the difference is floor-divided by the
milliseconds of one day. -/
def getDaysDifference (deadline today : JSDate) : Int :=
  (jsTime deadline - jsTime today).fdiv 86400000

/-- A sanity check of the civil-date arithmetic: the epoch itself. -/
example : daysFromCivil 1970 1 1 = 0 := by decide

/-- A sanity check across a (leap-year February) month boundary. -/
example : getDaysDifference ⟨2024, 2, 5⟩ ⟨2024, 1, 28⟩ = 6 := by decide

/-! ## Data types (types.ts) -/

/-- The two notification languages. -/
inductive Lang where
  | ja : Lang
  | en : Lang
deriving DecidableEq

/-- Embeds the `DeadlineAnnotation` record of types.ts (`Ann` abbreviates the
source's name). `deadlineDate` holds the calendar fields of
`new Date(year, month - 1, day)` as constructed (its reads go through
`jsTime`, which performs the JS normalization). -/
structure DeadlineAnn where
  filePath : String
  lineNumber : Nat
  year : Int
  month : Int
  day : Int
  description : Option String
  slackMention : Option String
  codeBlock : String
  elementName : String
  author : Option String
  authorEmail : Option String
  deadlineDate : JSDate
deriving DecidableEq

/-- Embeds `ActionConfig` of types.ts; the `Record<string, string>` map is an
association list looked up by `mapGet`. -/
structure ActionConfig where
  slackWebhookUrl : Option String
  slackBotToken : Option String
  slackChannel : Option String
  language : Lang
  customTemplate : Option String
  repository : String
  defaultBranch : String
  scanDirectory : String
  notifyDaysBefore : Int
  notifyPastDeadlines : Bool
  githubToSlackMap : List (String × String)
deriving DecidableEq

/-- JS object property read `map[k]` on the username map. -/
def mapGet (m : List (String × String)) (k : String) : Option String :=
  (m.find? (fun pr => pr.1 == k)).map (fun pr => pr.2)

/-- A truthy JS object property read: `map[k]` when the stored value is a
nonempty string, as tested by `if (map[k])`. -/
def truthyGet (m : List (String × String)) (k : String) : Option String :=
  match mapGet m k with
  | some v => if v == "" then none else some v
  | none => none

/-- The block kinds the composer emits (types.ts's `SlackBlock`, closed over
the combinations the code actually constructs): a header with plain text, a
section with one mrkdwn text, a section with two mrkdwn fields, a divider. -/
inductive SlackBlock where
  | header : String → SlackBlock
  | sectionText : String → SlackBlock
  | sectionFields : String → String → SlackBlock
  | divider : SlackBlock
deriving DecidableEq

/-- Embeds `SlackMessage` of types.ts. -/
structure SlackMessage where
  channel : Option String
  text : String
  blocks : Option (List SlackBlock)
deriving DecidableEq

/-- Embeds `ParseResult` of types.ts. -/
structure ParseResult where
  filePath : String
  annotations : List DeadlineAnn
  errors : List String
deriving DecidableEq

/-! ## Message tables (slack.ts `MESSAGES`) -/

/-- The per-language message table of slack.ts. -/
structure Msgs where
  title : String
  deadlineReached : String
  deadlineApproaching : String
  deadlinePassed : String
  daysRemaining : Int → String
  daysOverdue : Nat → String
  file : String
  line : String
  element : String
  deadline : String
  author : String
  description : String
  pleaseRemove : String
  viewCode : String
  noDeadlines : String
  summary : Nat → String

/-- The Japanese message table. -/
def msgsJa : Msgs where
  title := ":warning: デッドライン通知"
  deadlineReached := "デッドラインに達しました"
  deadlineApproaching := "デッドラインが近づいています"
  deadlinePassed := "デッドラインを過ぎています"
  daysRemaining := fun days => "残り " ++ toString days ++ " 日"
  daysOverdue := fun days => toString days ++ " 日超過"
  file := "ファイル"
  line := "行"
  element := "対象"
  deadline := "デッドライン"
  author := "作成者"
  description := "説明"
  pleaseRemove := "このコードを削除または対応してください"
  viewCode := "コードを見る"
  noDeadlines := "本日対応が必要なデッドラインはありません"
  summary := fun count => toString count ++ " 件のデッドラインが見つかりました"

/-- The English message table. -/
def msgsEn : Msgs where
  title := ":warning: Deadline Reminder"
  deadlineReached := "Deadline reached"
  deadlineApproaching := "Deadline approaching"
  deadlinePassed := "Deadline passed"
  daysRemaining := fun days => toString days ++ " day(s) remaining"
  daysOverdue := fun days => toString days ++ " day(s) overdue"
  file := "File"
  line := "Line"
  element := "Element"
  deadline := "Deadline"
  author := "Author"
  description := "Description"
  pleaseRemove := "Please remove or address this code"
  viewCode := "View Code"
  noDeadlines := "No deadlines require attention today"
  summary := fun count => toString count ++ " deadline(s) found"

/-- The `MESSAGES` table keyed by language. -/
def MESSAGES : Lang → Msgs
  | .ja => msgsJa
  | .en => msgsEn

/-! ## slack.ts helpers -/

/-- Embeds the `padLeft` polyfill (JS `String.prototype.padStart`): pad on
the left with copies of `pad` up to length `len`; an empty pad string pads
nothing. -/
def padLeft (s : String) (len : Nat) (pad : String) : String :=
  if s.length ≥ len then s
  else if pad == "" then s
  else String.mk (((List.replicate len pad.data).flatten.take (len - s.length)) ++ s.data)

/-- Embeds `formatDate` (slack.ts): `year-month-day` with the month and day
rendered two digits wide, zero padded. -/
def formatDate (date : JSDate) : String :=
  toString date.year ++ "-" ++ padLeft (toString (date.month0 + 1)) 2 "0"
    ++ "-" ++ padLeft (toString date.day) 2 "0"

/-- Embeds `getGitHubUrl` (slack.ts); the `^\.\/` replace strips one leading
`./` from the path. -/
def getGitHubUrl (repository defaultBranch filePath : String) (lineNumber : Nat) : String :=
  let cleanPath := if filePath.startsWith "./" then filePath.drop 2 else filePath
  "https://github.com/" ++ repository ++ "/blob/" ++ defaultBranch ++ "/" ++ cleanPath
    ++ "#L" ++ toString lineNumber

/-- Embeds `getStatusEmoji` (slack.ts). -/
def getStatusEmoji (daysDiff : Int) : String :=
  if daysDiff < 0 then ":rotating_light:"
  else if daysDiff == 0 then ":alarm_clock:"
  else if daysDiff ≤ 3 then ":warning:"
  else ":calendar:"

/-- The regex `^\d+\+([^@]+)@users\.noreply\.github\.com$` of blame.ts. -/
def noreplyNewRE : RE :=
  reSeq [rePlus isDigitJS, .cls (fun c => c == '+'),
    .grp 1 (rePlus (fun c => !(c == '@'))),
    reLit "@users.noreply.github.com".data, .eos]

/-- The regex `^([^@]+)@users\.noreply\.github\.com$` of blame.ts. -/
def noreplyOldRE : RE :=
  reSeq [.grp 1 (rePlus (fun c => !(c == '@'))),
    reLit "@users.noreply.github.com".data, .eos]

/-- Embeds `extractGitHubUsername` (blame.ts): the username captured by the
new-style noreply pattern, else by the old-style pattern, else nothing.
Both regexes are anchored on both sides, so the anchored matcher suffices. -/
def extractGitHubUsername (email : String) : Option String :=
  match matchAnchored noreplyNewRE email.data with
  | some pr => some (String.mk ((capGet pr.2 1).getD []))
  | none =>
    match matchAnchored noreplyOldRE email.data with
    | some pr => some (String.mk ((capGet pr.2 1).getD []))
    | none => none

/-- A sanity example of the new-style noreply pattern. -/
example : extractGitHubUsername "12345678+octo-cat@users.noreply.github.com"
    = some "octo-cat" := by decide

/-- A sanity example of the old-style noreply pattern and a rejection. -/
example : extractGitHubUsername "octo@users.noreply.github.com" = some "octo"
    ∧ extractGitHubUsername "octo@gmail.com" = none := by decide

/-- Embeds `resolveSlackMention` (slack.ts): the annotation's own
`slackMention` if truthy; else, when the author email is truthy, the
GitHub-noreply username looked up in the map, else the raw email looked up;
else the author name looked up. A map hit is wrapped as `<@id>`; every map
read is guarded by JS truthiness of the stored value. -/
def resolveSlackMention (a : DeadlineAnn) (config : ActionConfig) : Option String :=
  if jsTruthyS a.slackMention then a.slackMention
  else
    let viaEmail : Option String :=
      if jsTruthyS a.authorEmail then
        let email := a.authorEmail.getD ""
        let viaUser : Option String :=
          match extractGitHubUsername email with
          | some githubUsername =>
            if githubUsername == "" then none
            else
              match truthyGet config.githubToSlackMap githubUsername with
              | some v => some ("<@" ++ v ++ ">")
              | none => none
          | none => none
        match viaUser with
        | some m => some m
        | none =>
          match truthyGet config.githubToSlackMap email with
          | some v => some ("<@" ++ v ++ ">")
          | none => none
      else none
    match viaEmail with
    | some m => some m
    | none =>
      if jsTruthyS a.author then
        match truthyGet config.githubToSlackMap (a.author.getD "") with
        | some v => some ("<@" ++ v ++ ">")
        | none => none
      else none

/-! ## slack.ts message composition -/

/-- Embeds `buildAnnotationBlocks` (slack.ts): the per-record block group —
status line (with optional mention), two field sections, an optional
description section, and a divider. -/
def buildAnnotationBlocks (a : DeadlineAnn) (config : ActionConfig) (today : JSDate) :
    List SlackBlock :=
  let msg := MESSAGES config.language
  let daysDiff := getDaysDifference a.deadlineDate today
  let statusEmoji := getStatusEmoji daysDiff
  let statusText :=
    if daysDiff < 0 then msg.deadlinePassed ++ " (" ++ msg.daysOverdue daysDiff.natAbs ++ ")"
    else if daysDiff == 0 then msg.deadlineReached
    else msg.deadlineApproaching ++ " (" ++ msg.daysRemaining daysDiff ++ ")"
  let githubUrl := getGitHubUrl config.repository config.defaultBranch a.filePath a.lineNumber
  let mention := resolveSlackMention a config
  let authorLink :=
    if jsTruthyS a.author then
      "<https://github.com/" ++ a.author.getD "" ++ "|" ++ a.author.getD "" ++ ">"
    else "Unknown"
  let fileLink := "<" ++ githubUrl ++ "|" ++ a.filePath ++ ">"
  [SlackBlock.sectionText (statusEmoji ++ " *" ++ statusText ++ "*"
      ++ (if jsTruthyS mention then " " ++ mention.getD "" else "")),
   SlackBlock.sectionFields ("*" ++ msg.element ++ ":*\n" ++ a.elementName)
     ("*" ++ msg.deadline ++ ":*\n" ++ formatDate a.deadlineDate),
   SlackBlock.sectionFields
     ("*" ++ msg.file ++ ":*\n" ++ fileLink ++ " (" ++ msg.line ++ ": "
       ++ toString a.lineNumber ++ ")")
     ("*" ++ msg.author ++ ":*\n" ++ authorLink)]
  ++ (if jsTruthyS a.description then
        [SlackBlock.sectionText ("*" ++ msg.description ++ ":* " ++ a.description.getD "")]
      else [])
  ++ [SlackBlock.divider]

/-- The regex `:[^:]+:` used to strip emoji codes from the header title. -/
def emojiColonRE : RE :=
  reSeq [.cls (fun c => c == ':'), rePlus (fun c => !(c == ':')), .cls (fun c => c == ':')]

/-- Global regex replacement (JS `str.replace(re, repl)` with the `g` flag),
with fuel bounded by the string length; the patterns used always consume at
least one character per match. -/
def replaceAllAux (re : RE) (repl : List Char) : Nat → List Char → List Char
  | 0, s => s
  | fuel + 1, s =>
    match searchRE re s 0 with
    | none => s
    | some (st, len, _) =>
      if len == 0 then s
      else s.take st ++ repl ++ replaceAllAux re repl fuel (s.drop (st + len))

/-- Global regex replacement over a character list. -/
def replaceAllRE (re : RE) (repl : List Char) (s : List Char) : List Char :=
  replaceAllAux re repl (s.length + 1) s

/-- Global replacement of a literal pattern (the template placeholders are
literal regexes). -/
def replaceAllLit (pat repl s : List Char) : List Char :=
  replaceAllRE (reLit pat) repl s

/-- JS `trim`: whitespace dropped from both ends. -/
def trimJS (s : List Char) : List Char :=
  ((s.dropWhile isWsJS).reverse.dropWhile isWsJS).reverse

/-- The header title computation of `buildSlackMessage`: emoji codes removed
by the global `:[^:]+:` replace, then trimmed. -/
def headerText (title : String) : String :=
  String.mk (trimJS (replaceAllRE emojiColonRE [] title.data))

/-- A sanity example of the header title computation. -/
example : headerText ":warning: Deadline Reminder" = "Deadline Reminder" := by decide

/-- The `MAX_BLOCKS` constant of `buildSlackMessage`. -/
def maxBlocksJS : Nat := 30

/-- The truncation notice text of `buildSlackMessage`. -/
def truncNotice (lang : Lang) (remainingCount : Nat) : String :=
  match lang with
  | .ja => "...他 " ++ toString remainingCount ++ " 件のデッドラインがあります"
  | .en => "...and " ++ toString remainingCount ++ " more deadline(s)"

/-- The annotation loop of `buildSlackMessage`: append each record's block
group while it still fits under `MAX_BLOCKS`, stopping (JS `break`) at the
first group that would overflow; also counts the records displayed. -/
def appendAnnBlocks (config : ActionConfig) (today : JSDate) :
    List DeadlineAnn → List SlackBlock → List SlackBlock × Nat
  | [], blocks => (blocks, 0)
  | a :: rest, blocks =>
    let g := buildAnnotationBlocks a config today
    if blocks.length + g.length > maxBlocksJS then (blocks, 0)
    else
      let pr := appendAnnBlocks config today rest (blocks ++ g)
      (pr.1, pr.2 + 1)

/-- Embeds `buildSlackMessage` (slack.ts): the fixed "no deadlines" message
for an empty list; otherwise header, summary and divider, the per-record
groups that fit the block budget, and a truncation notice when records were
left out. -/
def buildSlackMessage (anns : List DeadlineAnn) (config : ActionConfig) (today : JSDate) :
    SlackMessage :=
  let msg := MESSAGES config.language
  if anns.length = 0 then
    { channel := none, text := msg.noDeadlines,
      blocks := some [SlackBlock.sectionText (":white_check_mark: " ++ msg.noDeadlines)] }
  else
    let initBlocks : List SlackBlock :=
      [SlackBlock.header (headerText msg.title),
       SlackBlock.sectionText (msg.summary anns.length),
       SlackBlock.divider]
    let pr := appendAnnBlocks config today anns initBlocks
    let blocks :=
      if pr.2 < anns.length then
        pr.1 ++ [SlackBlock.sectionText (truncNotice config.language (anns.length - pr.2))]
      else pr.1
    { channel := config.slackChannel,
      text := msg.title ++ " - " ++ msg.summary anns.length,
      blocks := some blocks }

/-! ## slack.ts custom template composition -/

/-- The whole-template substitutions of `buildCustomSlackMessage`:
`\x7b\x7bcount\x7d\x7d` and `\x7b\x7bdate\x7d\x7d`. -/
def applyTemplateGlobals (anns : List DeadlineAnn) (today : JSDate) (tpl : List Char) :
    List Char :=
  let t1 := replaceAllLit "\x7b\x7bcount\x7d\x7d".data (toString anns.length).data tpl
  replaceAllLit "\x7b\x7bdate\x7d\x7d".data (formatDate today).data t1

/-- The per-record substitutions of `buildCustomSlackMessage`, in source
order. The JS `replace` special `$`-sequences in replacement text are not
modelled: replacements are inserted verbatim. -/
def renderAnnTemplate (config : ActionConfig) (today : JSDate) (tpl : List Char)
    (a : DeadlineAnn) : List Char :=
  let daysDiff := getDaysDifference a.deadlineDate today
  let githubUrl := getGitHubUrl config.repository config.defaultBranch a.filePath a.lineNumber
  let mention := resolveSlackMention a config
  let t := replaceAllLit "\x7b\x7belementName\x7d\x7d".data a.elementName.data tpl
  let t := replaceAllLit "\x7b\x7bfilePath\x7d\x7d".data a.filePath.data t
  let t := replaceAllLit "\x7b\x7blineNumber\x7d\x7d".data (toString a.lineNumber).data t
  let t := replaceAllLit "\x7b\x7bdeadline\x7d\x7d".data (formatDate a.deadlineDate).data t
  let t := replaceAllLit "\x7b\x7bauthor\x7d\x7d".data
    (if jsTruthyS a.author then a.author.getD "" else "Unknown").data t
  let t := replaceAllLit "\x7b\x7bdescription\x7d\x7d".data
    (if jsTruthyS a.description then a.description.getD "" else "").data t
  let t := replaceAllLit "\x7b\x7bcodeBlock\x7d\x7d".data a.codeBlock.data t
  let t := replaceAllLit "\x7b\x7bgithubUrl\x7d\x7d".data githubUrl.data t
  let t := replaceAllLit "\x7b\x7bdaysDiff\x7d\x7d".data (toString daysDiff).data t
  let t := replaceAllLit "\x7b\x7bmention\x7d\x7d".data
    (if jsTruthyS mention then mention.getD "" else "").data t
  replaceAllLit "\x7b\x7bslackMention\x7d\x7d".data
    (if jsTruthyS a.slackMention then a.slackMention.getD "" else "").data t

/-- JS `join('\n\n')`: the rendered template copies concatenated with blank
line separators. -/
def joinBlankLineL : List (List Char) → List Char
  | [] => []
  | [l] => l
  | l :: ls => l ++ '\n' :: '\n' :: joinBlankLineL ls

/-- Embeds `buildCustomSlackMessage` (slack.ts). When the configured template
is falsy (unset or empty) it delegates to `buildSlackMessage`. Otherwise it
substitutes the global and per-record placeholders and joins the rendered
copies with blank lines into a text-only message. The source wraps the body
in try/catch, but every operation in the body is a total string
substitution, so the catch branch is unreachable and is not modelled. -/
def buildCustomSlackMessage (anns : List DeadlineAnn) (config : ActionConfig)
    (today : JSDate) : SlackMessage :=
  if !(jsTruthyS config.customTemplate) then buildSlackMessage anns config today
  else
    let template := applyTemplateGlobals anns today (config.customTemplate.getD "").data
    let messages := anns.map (renderAnnTemplate config today template)
    { channel := config.slackChannel,
      text := String.mk (joinBlankLineL messages),
      blocks := none }

/-- Embeds `filterAnnotationsByDate` (slack.ts): keep a record when its day
difference is within `[0, notifyDaysBefore]`, or negative with
`notifyPastDeadlines` set. -/
def filterAnnotationsByDate (anns : List DeadlineAnn) (config : ActionConfig)
    (today : JSDate) : List DeadlineAnn :=
  anns.filter (fun a =>
    let daysDiff := getDaysDifference a.deadlineDate today
    if 0 ≤ daysDiff ∧ daysDiff ≤ config.notifyDaysBefore then true
    else if daysDiff < 0 ∧ config.notifyPastDeadlines = true then true
    else false)

/-! ## parser.ts: comment classification -/

/-- The block-comment phase of `isInsideComment` (parser.ts): walk the
document from the start toward the target offset (the fuel is the number of
positions left to scan), toggling the inside-a-block-comment flag on each
non-nesting occurrence of the open and close tokens, which consume two
positions; report the flag at the offset. -/
def scanBlockComment : Nat → List Char → Bool → Bool
  | 0, _, inBlock => inBlock
  | _ + 1, [], inBlock => inBlock
  | _ + 1, [_], inBlock => inBlock
  | n + 1, c1 :: c2 :: rest, inBlock =>
    if !inBlock && c1 == '/' && c2 == '*' then
      match n with
      | 0 => true
      | n' + 1 => scanBlockComment n' rest true
    else if inBlock && c1 == '*' && c2 == '/' then
      match n with
      | 0 => false
      | n' + 1 => scanBlockComment n' rest false
    else scanBlockComment n (c2 :: rest) inBlock

/-- Two consecutive slashes somewhere in the list (the `\/\/` search of the
line-comment check). -/
def hasDoubleSlash : List Char → Bool
  | c1 :: c2 :: rest => if c1 == '/' && c2 == '/' then true else hasDoubleSlash (c2 :: rest)
  | _ => false

/-- Embeds `isInsideComment` (parser.ts): inside a block comment per the
forward scan, or else a `//` occurs between the current line's start (the
position after the previous line break) and the offset. -/
def isInsideComment (content : List Char) (index : Nat) : Bool :=
  if scanBlockComment index content false then true
  else
    hasDoubleSlash (((content.take index).reverse.takeWhile (fun c => !(c == '\n'))).reverse)

/-- A sanity example: an offset between the comment tokens is commented. -/
example : isInsideComment "ab /* cd */".data 7 = true := by decide

/-- A sanity example: after the comment closes, and with a line comment. -/
example : isInsideComment "ab /* cd */ ef".data 12 = false
    ∧ isInsideComment "ab // cd".data 6 = true
    ∧ isInsideComment "// x\nab".data 5 = false := by decide

/-! ## parser.ts: code block extraction -/

/-- The loop of `extractBalancedBraces` (parser.ts): copy characters,
incrementing the depth on each opening brace (marking the span opened) and
decrementing on each closing brace, stopping right after the closing brace
that returns an opened span's depth to zero. -/
def ebbLoop : List Char → Int → Bool → List Char
  | [], _, _ => []
  | c :: rest, depth, started =>
    if c == obrace then c :: ebbLoop rest (depth + 1) true
    else if c == cbrace then
      if started && depth - 1 == 0 then [c]
      else c :: ebbLoop rest (depth - 1) started
    else c :: ebbLoop rest depth started

/-- Embeds `extractBalancedBraces` (parser.ts), scanning from `startIndex`
with depth 0 and the span not yet opened. -/
def extractBalancedBraces (content : List Char) (startIndex : Nat) : List Char :=
  ebbLoop (content.drop startIndex) 0 false

/-- JS `split('\n')` over a character list: the (possibly empty) segments
between line breaks, one more segment than there are breaks. -/
def splitLinesL : List Char → List (List Char)
  | [] => [[]]
  | '\n' :: rest => [] :: splitLinesL rest
  | c :: rest =>
    match splitLinesL rest with
    | [] => [[c]]
    | l :: ls => (c :: l) :: ls

/-- JS `join('\n')` over segments. -/
def joinLinesL : List (List Char) → List Char
  | [] => []
  | [l] => l
  | l :: ls => l ++ '\n' :: joinLinesL ls

/-- Embeds `truncateCodeBlock` (parser.ts): keep the first `maxLines` lines
and append a truncation marker when over the limit. -/
def truncateCodeBlock (code : String) (maxLines : Nat) : String :=
  let lines := splitLinesL code.data
  if lines.length > maxLines then
    String.mk (joinLinesL (lines.take maxLines) ++ "\n  // ... (truncated)".data)
  else code

/-- Embeds `getLineNumber` (parser.ts): one plus the line breaks before the
offset (`split('\n').length` of the prefix). -/
def getLineNumber (content : List Char) (index : Nat) : Nat :=
  (content.take index).count '\n' + 1

/-- The class used by the source's type-like regex fragments:
`[\w<>,\s]`. -/
def isTypeChar (c : Char) : Bool :=
  isWordJS c || c == '<' || c == '>' || c == ',' || isWsJS c

/-- The regex `^((?:abstract\s+)?class\s+(\w+)[^{]*\x7b)` of
`extractCodeBlock`. -/
def classRE : RE :=
  .grp 1 (reSeq [reOpt (reSeq [reLit "abstract".data, wsPlus]),
    reLit "class".data, wsPlus, .grp 2 (rePlus isWordJS),
    .starG (fun c => !(c == obrace)), .cls (fun c => c == obrace)])

/-- The regex `^(mixin\s+(\w+)[^{]*\x7b)` of `extractCodeBlock`. -/
def mixinRE : RE :=
  .grp 1 (reSeq [reLit "mixin".data, wsPlus, .grp 2 (rePlus isWordJS),
    .starG (fun c => !(c == obrace)), .cls (fun c => c == obrace)])

/-- The regex `^(extension\s+(\w+)?[^{]*\x7b)` of `extractCodeBlock`. -/
def extensionRE : RE :=
  .grp 1 (reSeq [reLit "extension".data, wsPlus, reOpt (.grp 2 (rePlus isWordJS)),
    .starG (fun c => !(c == obrace)), .cls (fun c => c == obrace)])

/-- The regex `^(enum\s+(\w+)[^{]*\x7b)` of `extractCodeBlock`. -/
def enumRE : RE :=
  .grp 1 (reSeq [reLit "enum".data, wsPlus, .grp 2 (rePlus isWordJS),
    .starG (fun c => !(c == obrace)), .cls (fun c => c == obrace)])

/-- The function/method signature regex of `extractCodeBlock`:
`^((?:static\s+)?(?:Future<[^>]+>|Stream<[^>]+>|void|int|double|bool|String|dynamic|var|final|const|[\w<>,\s]+)\s+(?:get\s+)?(\w+)\s*(?:<[^>]+>)?\s*\([^)]*\)[^{;]*)`. -/
def funcRE : RE :=
  .grp 1 (reSeq [
    reOpt (reSeq [reLit "static".data, wsPlus]),
    reAlts [
      reSeq [reLit "Future<".data, rePlus (fun c => !(c == '>')), .cls (fun c => c == '>')],
      reSeq [reLit "Stream<".data, rePlus (fun c => !(c == '>')), .cls (fun c => c == '>')],
      reLit "void".data, reLit "int".data, reLit "double".data, reLit "bool".data,
      reLit "String".data, reLit "dynamic".data, reLit "var".data, reLit "final".data,
      reLit "const".data, rePlus isTypeChar],
    wsPlus,
    reOpt (reSeq [reLit "get".data, wsPlus]),
    .grp 2 (rePlus isWordJS),
    wsStar,
    reOpt (reSeq [.cls (fun c => c == '<'), rePlus (fun c => !(c == '>')),
      .cls (fun c => c == '>')]),
    wsStar,
    .cls (fun c => c == '('), .starG (fun c => !(c == ')')), .cls (fun c => c == ')'),
    .starG (fun c => !(c == obrace || c == ';'))])

/-- The getter regex of `extractCodeBlock`:
`^((?:static\s+)?[\w<>,\s]+\s+get\s+(\w+))`. -/
def getterRE : RE :=
  .grp 1 (reSeq [reOpt (reSeq [reLit "static".data, wsPlus]), rePlus isTypeChar,
    wsPlus, reLit "get".data, wsPlus, .grp 2 (rePlus isWordJS)])

/-- The variable/constant initializer regex of `extractCodeBlock`:
`^((?:static\s+)?(?:final\s+|const\s+|var\s+|late\s+)?(?:[\w<>,\s]+\s+)?(\w+)\s*=)`. -/
def varRE : RE :=
  .grp 1 (reSeq [reOpt (reSeq [reLit "static".data, wsPlus]),
    reOpt (reAlts [reSeq [reLit "final".data, wsPlus], reSeq [reLit "const".data, wsPlus],
      reSeq [reLit "var".data, wsPlus], reSeq [reLit "late".data, wsPlus]]),
    reOpt (reSeq [rePlus isTypeChar, wsPlus]),
    .grp 2 (rePlus isWordJS), wsStar, .cls (fun c => c == '=')])

/-- The fallback name regex of `extractCodeBlock`:
`(?:class|mixin|extension|enum|void|Future|Stream|int|double|bool|String|dynamic|var|final|const)\s+(\w+)`. -/
def nameRE : RE :=
  reSeq [reAlts [reLit "class".data, reLit "mixin".data, reLit "extension".data,
    reLit "enum".data, reLit "void".data, reLit "Future".data, reLit "Stream".data,
    reLit "int".data, reLit "double".data, reLit "bool".data, reLit "String".data,
    reLit "dynamic".data, reLit "var".data, reLit "final".data, reLit "const".data],
    wsPlus, .grp 1 (rePlus isWordJS)]

/-- Whether the text starts with the arrow token `=>`. -/
def isArrowStart : List Char → Bool
  | '=' :: '>' :: _ => true
  | _ => false

/-- The statement-end scan of the variable branch of `extractCodeBlock`: the
index of the first `;` at nesting depth zero, tracking depth across
parentheses, brackets and braces (the depth may go negative, as in the
source). -/
def stmtEnd : List Char → Int → Option Nat
  | [], _ => none
  | c :: rest, depth =>
    if c == '(' || c == '[' || c == obrace then (stmtEnd rest (depth + 1)).map (· + 1)
    else if c == ')' || c == ']' || c == cbrace then (stmtEnd rest (depth - 1)).map (· + 1)
    else if c == ';' && depth == 0 then some 0
    else (stmtEnd rest depth).map (· + 1)

/-- Embeds `extractCodeBlock` (parser.ts): skip the whitespace after the
annotation, then classify the following declaration against the ordered
pattern list (class, mixin, extension, enum, function/method, getter,
variable initializer), extracting a brace-balanced span, an arrow body up to
the next semicolon, or a depth-zero-semicolon-terminated initializer as the
branch dictates; fall back to the first five lines. Every produced excerpt
passes through `truncateCodeBlock` with the 15-line default. -/
def extractCodeBlock (content : List Char) (annotationEndIndex : Nat) : String × String :=
  let afterAnn := content.drop annotationEndIndex
  let startIndex := (afterAnn.takeWhile isWsJS).length
  let codeStart := afterAnn.drop startIndex
  match matchAnchored classRE codeStart with
  | some pr =>
    (truncateCodeBlock (String.mk (extractBalancedBraces codeStart 0)) 15,
     String.mk ((capGet pr.2 2).getD []))
  | none =>
  match matchAnchored mixinRE codeStart with
  | some pr =>
    (truncateCodeBlock (String.mk (extractBalancedBraces codeStart 0)) 15,
     String.mk ((capGet pr.2 2).getD []))
  | none =>
  match matchAnchored extensionRE codeStart with
  | some pr =>
    let nm :=
      match capGet pr.2 2 with
      | some (c :: cs) => String.mk (c :: cs)
      | _ => "anonymous extension"
    (truncateCodeBlock (String.mk (extractBalancedBraces codeStart 0)) 15, nm)
  | none =>
  match matchAnchored enumRE codeStart with
  | some pr =>
    (truncateCodeBlock (String.mk (extractBalancedBraces codeStart 0)) 15,
     String.mk ((capGet pr.2 2).getD []))
  | none =>
  match matchAnchored funcRE codeStart with
  | some pr =>
    let elementName := String.mk ((capGet pr.2 2).getD [])
    let whole := codeStart.take pr.1
    let afterSignature := codeStart.drop pr.1
    let codeBlock :=
      if (afterSignature.dropWhile isWsJS).head? == some obrace then
        whole ++ extractBalancedBraces (afterSignature.dropWhile isWsJS) 0
      else if isArrowStart (afterSignature.dropWhile isWsJS) then
        match afterSignature.findIdx? (fun c => c == ';') with
        | some j => whole ++ afterSignature.take (j + 1)
        | none => whole
      else whole ++ ";".data
    (truncateCodeBlock (String.mk codeBlock) 15, elementName)
  | none =>
  match matchAnchored getterRE codeStart with
  | some pr =>
    let elementName := String.mk ((capGet pr.2 2).getD [])
    let whole := codeStart.take pr.1
    let afterSignature := codeStart.drop pr.1
    let codeBlock :=
      if (afterSignature.dropWhile isWsJS).head? == some obrace then
        whole ++ extractBalancedBraces (afterSignature.dropWhile isWsJS) 0
      else if isArrowStart (afterSignature.dropWhile isWsJS) then
        match afterSignature.findIdx? (fun c => c == ';') with
        | some j => whole ++ afterSignature.take (j + 1)
        | none => whole
      else []
    (truncateCodeBlock (String.mk codeBlock) 15, elementName)
  | none =>
  match matchAnchored varRE codeStart with
  | some pr =>
    let elementName := String.mk ((capGet pr.2 2).getD [])
    let remaining := codeStart.drop pr.1
    let endIndex := pr.1 + (match stmtEnd remaining 0 with | some i => i + 1 | none => 0)
    (truncateCodeBlock (String.mk (codeStart.take endIndex)) 15, elementName)
  | none =>
    let codeBlock := joinLinesL ((splitLinesL codeStart).take 5)
    let elementName :=
      match searchRE nameRE codeBlock 0 with
      | some pr => String.mk ((capGet pr.2.2 1).getD [])
      | none => "unknown"
    (truncateCodeBlock (String.mk codeBlock) 15, elementName)

/-- Sanity examples of the extractor's declaration branches: a function with
an arrow body swallowed by the signature's trailing class, a variable
initializer whose nested semicolon is skipped, a getter reached after the
function pattern backtracks and fails, and an enum body. -/
example : extractCodeBlock "int foo() => bar();\nmore".data 0
    = ("int foo() => bar();", "foo") := by decide

/-- The variable branch stops at the first depth-zero semicolon. -/
example : extractCodeBlock "final x = f(1; 2) + 3;\nrest".data 0
    = ("final x = f(1; 2) + 3;", "x") := by decide

/-- The getter branch captures through the arrow body's semicolon. -/
example : extractCodeBlock "String get title => compute();\nrest".data 0
    = ("String get title => compute();", "title") := by decide

/-- The enum branch extracts the balanced body. -/
example : extractCodeBlock "enum Color \x7b red, green \x7d x".data 0
    = ("enum Color \x7b red, green \x7d", "Color") := by decide

/-! ## parser.ts: parameter parsing and the scan loop -/

/-- The single-quoted value pattern of `parseNamedParameter`:
`name\s*:\s*'([^']*)'`. -/
def paramQuotedRE (q : Char) (pname : List Char) : RE :=
  reSeq [reLit pname, wsStar, .cls (fun c => c == ':'), wsStar,
    .cls (fun c => c == q), .grp 1 (.starG (fun c => !(c == q))), .cls (fun c => c == q)]

/-- The bare-number value pattern of `parseNamedParameter`:
`name\s*:\s*(\d+)`. -/
def paramNumberRE (pname : List Char) : RE :=
  reSeq [reLit pname, wsStar, .cls (fun c => c == ':'), wsStar, .grp 1 (rePlus isDigitJS)]

/-- Embeds `parseNamedParameter` (parser.ts): try the single-quoted, the
double-quoted, then the bare-number pattern; the first pattern that matches
anywhere wins and its capture is returned. -/
def parseNamedParameter (content : List Char) (pname : List Char) : Option (List Char) :=
  match searchRE (paramQuotedRE squote pname) content 0 with
  | some pr => some ((capGet pr.2.2 1).getD [])
  | none =>
    match searchRE (paramQuotedRE dquote pname) content 0 with
    | some pr => some ((capGet pr.2.2 1).getD [])
    | none =>
      match searchRE (paramNumberRE pname) content 0 with
      | some pr => some ((capGet pr.2.2 1).getD [])
      | none => none

/-- Pattern priority of `parseNamedParameter`: the quoted pattern wins over a
bare number standing earlier in the text. -/
example : parseNamedParameter "year: 3, year: \x27a\x27".data "year".data
    = some [Char.ofNat 97] := by decide

/-- The digits-prefix value of JS `parseInt(s, 10)` once whitespace and sign
are gone: nothing when no leading digit. -/
def digitsVal (l : List Char) : Option Nat :=
  let ds := l.takeWhile isDigitJS
  if ds.isEmpty then none
  else some (ds.foldl (fun acc c => acc * 10 + (c.toNat - 48)) 0)

/-- JS `parseInt(s, 10)`: skip leading whitespace, take an optional sign and
the maximal digit prefix; `none` models `NaN`. -/
def parseIntJS (s : List Char) : Option Int :=
  let t := s.dropWhile isWsJS
  match t with
  | '-' :: rest => (digitsVal rest).map (fun n => -(n : Int))
  | '+' :: rest => (digitsVal rest).map (fun n => (n : Int))
  | _ => (digitsVal t).map (fun n => (n : Int))

/-- The annotation pattern `@Deadline\s*\(\s*([\s\S]*?)\s*\)` of parser.ts
(`DEADLINE_PATTERN`). -/
def deadlineRE : RE :=
  reSeq [reLit "@Deadline".data, wsStar, .cls (fun c => c == '('), wsStar,
    .grp 1 (.starL (fun _ => true)), wsStar, .cls (fun c => c == ')')]

/-- One match of `DEADLINE_PATTERN`: start offset, captured argument text
(`match[1]`), and full match length (`match[0].length`). -/
structure DMatch where
  index : Nat
  inner : List Char
  len : Nat
deriving DecidableEq

/-- The global `exec` loop over `DEADLINE_PATTERN`: repeatedly search the
remaining suffix and continue after each match (`lastIndex`), with fuel
bounded by the text length (each match consumes at least one character). -/
def findMatchesAux (re : RE) : Nat → List Char → Nat → List DMatch
  | 0, _, _ => []
  | fuel + 1, s, base =>
    match searchRE re s 0 with
    | none => []
    | some (st, len, caps) =>
      if len == 0 then []
      else
        { index := base + st, inner := (capGet caps 1).getD [], len := len }
          :: findMatchesAux re fuel (s.drop (st + len)) (base + st + len)

/-- All matches of `DEADLINE_PATTERN` in the document, left to right. -/
def findDeadlineMatches (content : List Char) : List DMatch :=
  findMatchesAux deadlineRE (content.length + 1) content 0

/-- The missing-parameters error message of `parseDartFile`. -/
def msgMissingParams (content : List Char) (index : Nat) : String :=
  "Invalid @Deadline at line " ++ toString (getLineNumber content index)
    ++ ": missing required date parameters"

/-- The invalid-values error message of `parseDartFile`. -/
def msgInvalidValues (content : List Char) (index : Nat) : String :=
  "Invalid @Deadline at line " ++ toString (getLineNumber content index)
    ++ ": invalid date values"

/-- The loop body of `parseDartFile` (parser.ts) for one match: skip silently
when the match start is commented; report a missing-parameters error when a
required parameter is falsy; parse the three integers and report an
invalid-values error when any is `NaN`; otherwise build the record (the
try/catch around the body catches nothing, as the body is total). -/
def scanStep (content : List Char) (acc : ParseResult) (m : DMatch) : ParseResult :=
  if isInsideComment content m.index then acc
  else
    let yearStr := parseNamedParameter m.inner "year".data
    let monthStr := parseNamedParameter m.inner "month".data
    let dayStr := parseNamedParameter m.inner "day".data
    if !jsTruthyL yearStr || !jsTruthyL monthStr || !jsTruthyL dayStr then
      { acc with errors := acc.errors ++ [msgMissingParams content m.index] }
    else
      match parseIntJS (yearStr.getD []), parseIntJS (monthStr.getD []),
          parseIntJS (dayStr.getD []) with
      | some year, some month, some day =>
        let description := parseNamedParameter m.inner "description".data
        let slackMention := parseNamedParameter m.inner "slackMention".data
        let cb := extractCodeBlock content (m.index + m.len)
        { acc with annotations := acc.annotations ++ [{
            filePath := acc.filePath,
            lineNumber := getLineNumber content m.index,
            year := year, month := month, day := day,
            description := description.map String.mk,
            slackMention := slackMention.map String.mk,
            codeBlock := cb.1, elementName := cb.2,
            author := none, authorEmail := none,
            deadlineDate := { year := year, month0 := month - 1, day := day } }] }
      | _, _, _ => { acc with errors := acc.errors ++ [msgInvalidValues content m.index] }

/-- Embeds the pure scanning body of `parseDartFile` (parser.ts) over the
document text: fold the per-match step over every `DEADLINE_PATTERN` match.
The `fs.readFileSync` wrapper (a read failure yields one error and no
records) is I/O and is not modelled. -/
def parseDartContent (filePath : String) (content : List Char) : ParseResult :=
  (findDeadlineMatches content).foldl (scanStep content)
    { filePath := filePath, annotations := [], errors := [] }

/-! ## Specification-side definitions used by the theorems -/

/-- Mention resolution as the specification words it, first match wins:
(1) the record's own mention directive; (2) the GitHub-noreply username of
the attribution email looked up in the map; (3) the raw attribution email
looked up; (4) the attribution display name looked up; (5) no mention. -/
def mentionOrderSpec (a : DeadlineAnn) (config : ActionConfig) : Option String :=
  let step1 : Option String := if jsTruthyS a.slackMention then a.slackMention else none
  let step2 : Option String :=
    match a.authorEmail with
    | some email =>
      if email = "" then none
      else
        match extractGitHubUsername email with
        | some u =>
          if u = "" then none
          else (truthyGet config.githubToSlackMap u).map (fun v => "<@" ++ v ++ ">")
        | none => none
    | none => none
  let step3 : Option String :=
    match a.authorEmail with
    | some email =>
      if email = "" then none
      else (truthyGet config.githubToSlackMap email).map (fun v => "<@" ++ v ++ ">")
    | none => none
  let step4 : Option String :=
    match a.author with
    | some name =>
      if name = "" then none
      else (truthyGet config.githubToSlackMap name).map (fun v => "<@" ++ v ++ ">")
    | none => none
  step1.orElse (fun _ => step2.orElse (fun _ => step3.orElse (fun _ => step4)))

/-- Brace balance of a text: openings minus closings, as the specification
counts them. -/
def braceBalance (l : List Char) : Int :=
  (l.count obrace : Int) - (l.count cbrace : Int)

/-- The specification's description of where a balanced-delimiter span ends:
position `k` holds a closing brace, an opening brace occurred before it, and
the depth counter returns to zero right after it. -/
def closesSpanAt (cs : List Char) (k : Nat) : Prop :=
  cs.getD k ' ' = cbrace ∧ obrace ∈ cs.take k ∧ braceBalance (cs.take (k + 1)) = 0

instance (cs : List Char) (k : Nat) : Decidable (closesSpanAt cs k) := by
  unfold closesSpanAt; infer_instance

/-- Where the `ebbLoop` scan, entered with depth `d` and opened-flag `st`,
breaks: position `k` holds a closing brace, the span was opened (already on
entry, or by an earlier opening brace), and the entry depth plus the balance
through position `k` is zero. -/
def stClosesAt (cs : List Char) (d : Int) (st : Bool) (k : Nat) : Prop :=
  cs.getD k ' ' = cbrace ∧ (st = true ∨ obrace ∈ cs.take k) ∧
    d + braceBalance (cs.take (k + 1)) = 0

/-- The greedy prefix count realized by the `buildSlackMessage` annotation
loop: how many leading records' block groups fit, starting from a running
block count `len`, stopping at the first group that would overflow. -/
def greedyCount (config : ActionConfig) (today : JSDate) : Nat → List DeadlineAnn → Nat
  | _, [] => 0
  | len, a :: rest =>
    let gl := (buildAnnotationBlocks a config today).length
    if len + gl > maxBlocksJS then 0
    else greedyCount config today (len + gl) rest + 1

/-- A record is parsed from a match: its three date fields are the successful
integer parses of the match's three required parameters. -/
def recFromMatch (dm : DMatch) (r : DeadlineAnn) : Prop :=
  ∃ ys ms ds : List Char,
    parseNamedParameter dm.inner "year".data = some ys ∧ parseIntJS ys = some r.year ∧
    parseNamedParameter dm.inner "month".data = some ms ∧ parseIntJS ms = some r.month ∧
    parseNamedParameter dm.inner "day".data = some ds ∧ parseIntJS ds = some r.day

/-! ## Concrete fixtures for witnesses and counterexamples -/

/-- A concrete configuration (English, no custom template). -/
def cfgEn : ActionConfig where
  slackWebhookUrl := none
  slackBotToken := none
  slackChannel := some "#dev"
  language := Lang.en
  customTemplate := none
  repository := "anies1212/flutter-deadline"
  defaultBranch := "main"
  scanDirectory := "."
  notifyDaysBefore := 0
  notifyPastDeadlines := false
  githubToSlackMap := []

/-- A concrete annotation record with a fixed deadline date. -/
def annFix (dt : JSDate) : DeadlineAnn where
  filePath := "lib/a.dart"
  lineNumber := 3
  year := dt.year
  month := dt.month0 + 1
  day := dt.day
  description := none
  slackMention := some "<@U01>"
  codeBlock := "class A \x7b\x7d"
  elementName := "A"
  author := none
  authorEmail := none
  deadlineDate := dt

/-- A concrete reference date, 2024-06-15. -/
def today0 : JSDate := ⟨2024, 5, 15⟩

/-- The English configuration with a malformed custom template: the `count`
placeholder misses its closing delimiter. -/
def cfgMalformed : ActionConfig :=
  { cfgEn with customTemplate := some "\x7b\x7bcount\x7d" }

/-! ## Theorems -/

/-- The membership characterization of the date filter. -/
lemma mem_filterAnnotationsByDate (anns : List DeadlineAnn) (config : ActionConfig)
    (today : JSDate) (a : DeadlineAnn) :
    a ∈ filterAnnotationsByDate anns config today ↔
      a ∈ anns ∧
        ((0 ≤ getDaysDifference a.deadlineDate today ∧
          getDaysDifference a.deadlineDate today ≤ config.notifyDaysBefore) ∨
         (getDaysDifference a.deadlineDate today < 0 ∧ config.notifyPastDeadlines = true)) := by
  unfold filterAnnotationsByDate
  rw [List.mem_filter]
  refine and_congr_right fun _ => ?_
  dsimp only
  split_ifs with h1 h2
  · simp [h1]
  · simp [h2]
  · simp [h1, h2]

/-- C1: for every record, configuration and reference date, the filter keeps
the record exactly when the day difference lies in `[0, notifyDaysBefore]`,
or is negative with `notifyPastDeadlines` set; in particular with window 0
and no past notifications a day difference of 0 is kept while 1 and -1 are
dropped, and with past notifications a day difference of -30 is kept for any
window size. -/
theorem filterAnnotationsByDate_window :
    (∀ (anns : List DeadlineAnn) (config : ActionConfig) (today : JSDate) (a : DeadlineAnn),
      a ∈ filterAnnotationsByDate anns config today ↔
        a ∈ anns ∧
          ((0 ≤ getDaysDifference a.deadlineDate today ∧
            getDaysDifference a.deadlineDate today ≤ config.notifyDaysBefore) ∨
           (getDaysDifference a.deadlineDate today < 0 ∧ config.notifyPastDeadlines = true)))
    ∧ (∀ (anns : List DeadlineAnn) (config : ActionConfig) (today : JSDate) (a : DeadlineAnn),
        config.notifyDaysBefore = 0 → config.notifyPastDeadlines = false →
        ((getDaysDifference a.deadlineDate today = 0 →
            (a ∈ filterAnnotationsByDate anns config today ↔ a ∈ anns))
         ∧ (getDaysDifference a.deadlineDate today = 1 →
            a ∉ filterAnnotationsByDate anns config today)
         ∧ (getDaysDifference a.deadlineDate today = -1 →
            a ∉ filterAnnotationsByDate anns config today)))
    ∧ (∀ (anns : List DeadlineAnn) (config : ActionConfig) (today : JSDate) (a : DeadlineAnn),
        config.notifyPastDeadlines = true →
        getDaysDifference a.deadlineDate today = -30 →
        (a ∈ filterAnnotationsByDate anns config today ↔ a ∈ anns)) := by
  refine ⟨mem_filterAnnotationsByDate, ?_, ?_⟩
  · intro anns config today a h0 hpast
    refine ⟨fun hd => ?_, fun hd hmem => ?_, fun hd hmem => ?_⟩
    · rw [mem_filterAnnotationsByDate]
      simp [hd, h0]
    · rw [mem_filterAnnotationsByDate, hd, h0, hpast] at hmem
      norm_num at hmem
    · rw [mem_filterAnnotationsByDate, hd, h0, hpast] at hmem
      norm_num at hmem
  · intro anns config today a hpast hd
    rw [mem_filterAnnotationsByDate, hd, hpast]
    norm_num

/-- C10: the date filter returns a sublist of its input — every kept record
is the identical input record, order is preserved, and nothing is duplicated
or created. -/
theorem filterAnnotationsByDate_sublist (anns : List DeadlineAnn) (config : ActionConfig)
    (today : JSDate) :
    (filterAnnotationsByDate anns config today).Sublist anns := by
  unfold filterAnnotationsByDate
  exact List.filter_sublist anns

/-- C8: with an empty record list the composed message is the fixed
"no deadlines" acknowledgement — exactly one section block carrying the
configured language's text, with no header, summary or divider. -/
theorem buildSlackMessage_empty (config : ActionConfig) (today : JSDate) :
    buildSlackMessage [] config today =
      { channel := none, text := (MESSAGES config.language).noDeadlines,
        blocks := some [SlackBlock.sectionText
          (":white_check_mark: " ++ (MESSAGES config.language).noDeadlines)] }
    ∧ ∀ bs, (buildSlackMessage [] config today).blocks = some bs → bs.length = 1 := by
  constructor
  · rfl
  · intro bs h
    simp only [buildSlackMessage, List.length_nil, if_pos rfl] at h
    cases h
    rfl

/-- Two-digit zero padding of the decimal rendering of an integer between 1
and 31. -/
lemma padLeft_two_digits (n : Int) (h1 : 1 ≤ n) (h2 : n ≤ 31) :
    padLeft (toString n) 2 "0" = if n < 10 then "0" ++ toString n else toString n := by
  interval_cases n <;> decide

/-- C9: for every valid year/month/day triple, the date derived from the
triple (the code constructs `new Date(year, month - 1, day)`) formats as
year, zero-padded two-digit month and zero-padded two-digit day separated by
dashes. -/
theorem formatDate_pads (y m d : Int) (h1 : 1 ≤ m) (h2 : m ≤ 12) (h3 : 1 ≤ d)
    (h4 : d ≤ 31) :
    formatDate ⟨y, m - 1, d⟩ =
      toString y ++ "-" ++ (if m < 10 then "0" ++ toString m else toString m)
        ++ "-" ++ (if d < 10 then "0" ++ toString d else toString d) := by
  unfold formatDate
  have hm : m - 1 + 1 = m := by ring
  dsimp only
  rw [hm, padLeft_two_digits m h1 (by omega), padLeft_two_digits d h3 h4]

/-- C9 witness: the triple (2024, 3, 5) formats as 2024-03-05. -/
theorem formatDate_pads_witness :
    formatDate ⟨2024, 3 - 1, 5⟩ = "2024-03-05" :=
  (formatDate_pads 2024 3 5 (by norm_num) (by norm_num) (by norm_num) (by norm_num)).trans
    (by decide)

/-- C3: a match whose start offset the comment classifier marks as commented
contributes nothing to the parse outcome: the scan step returns its
accumulator unchanged — no record and no error for that match. -/
theorem scanStep_commented_skip (content : List Char) (acc : ParseResult) (m : DMatch)
    (h : isInsideComment content m.index = true) :
    scanStep content acc m = acc := by
  simp [scanStep, h]

/-- C3 witness: in a document whose annotation marker lies between the block
comment tokens across several lines, the position is classified as
commented, the scan step for it changes nothing, and the whole parse of the
document yields no record and no error. -/
theorem scanStep_commented_skip_witness :
    isInsideComment "/* x\n@Deadline(year: 2024, month: 1, day: 2)\n*/\nclass A \x7b\x7d".data 5
        = true
    ∧ scanStep "/* x\n@Deadline(year: 2024, month: 1, day: 2)\n*/\nclass A \x7b\x7d".data
        { filePath := "t.dart", annotations := [], errors := [] }
        { index := 5, inner := "year: 2024, month: 1, day: 2".data, len := 39 }
        = { filePath := "t.dart", annotations := [], errors := [] }
    ∧ parseDartContent "t.dart"
        "/* x\n@Deadline(year: 2024, month: 1, day: 2)\n*/\nclass A \x7b\x7d".data
        = { filePath := "t.dart", annotations := [], errors := [] } :=
  ⟨by decide, scanStep_commented_skip _ _ _ (by decide), by decide⟩

/-- A truthy optional character list is the `some` of its default read. -/
lemma jsTruthyL_some (o : Option (List Char)) (h : jsTruthyL o = true) :
    o = some (o.getD []) := by
  cases o with
  | none => simp [jsTruthyL] at h
  | some l => rfl

/-- One scan step either leaves the record list unchanged or appends exactly
one record whose date fields come from successful integer parses of the
match's parameters. -/
lemma scanStep_annotations (content : List Char) (acc : ParseResult) (m : DMatch) :
    (scanStep content acc m).annotations = acc.annotations ∨
    ∃ r, (scanStep content acc m).annotations = acc.annotations ++ [r] ∧ recFromMatch m r := by
  unfold scanStep
  split
  · exact Or.inl rfl
  · dsimp only
    split
    · exact Or.inl rfl
    · rename_i hall
      have h3 : jsTruthyL (parseNamedParameter m.inner "year".data) = true
          ∧ jsTruthyL (parseNamedParameter m.inner "month".data) = true
          ∧ jsTruthyL (parseNamedParameter m.inner "day".data) = true := by
        constructor
        · cases hy : jsTruthyL (parseNamedParameter m.inner "year".data) <;>
            simp [hy] at hall ⊢
        constructor
        · cases hmo : jsTruthyL (parseNamedParameter m.inner "month".data) <;>
            simp [hmo] at hall ⊢
        · cases hd : jsTruthyL (parseNamedParameter m.inner "day".data) <;>
            simp [hd] at hall ⊢
      split
      · rename_i year month day hy hmo hd
        refine Or.inr ⟨_, rfl, ?_⟩
        exact ⟨(parseNamedParameter m.inner "year".data).getD [],
          (parseNamedParameter m.inner "month".data).getD [],
          (parseNamedParameter m.inner "day".data).getD [],
          jsTruthyL_some _ h3.1, hy,
          jsTruthyL_some _ h3.2.1, hmo,
          jsTruthyL_some _ h3.2.2, hd⟩
      · exact Or.inl rfl

/-- Every record in the folded outcome is either carried in from the
accumulator or parsed from one of the matches. -/
lemma foldl_scanStep_mem (content : List Char) :
    ∀ (ms : List DMatch) (acc : ParseResult) (r : DeadlineAnn),
      r ∈ (ms.foldl (scanStep content) acc).annotations →
      r ∈ acc.annotations ∨ ∃ dm ∈ ms, recFromMatch dm r := by
  intro ms
  induction ms with
  | nil => exact fun acc r h => Or.inl h
  | cons m rest ih =>
    intro acc r h
    simp only [List.foldl_cons] at h
    rcases ih _ r h with hin | ⟨dm, hdm, hrec⟩
    · rcases scanStep_annotations content acc m with heq | ⟨r', heq, hrec'⟩
      · rw [heq] at hin
        exact Or.inl hin
      · rw [heq] at hin
        rcases List.mem_append.mp hin with h1 | h2
        · exact Or.inl h1
        · have hr : r = r' := by simpa using h2
          subst hr
          exact Or.inr ⟨m, List.mem_cons_self m rest, hrec'⟩
    · exact Or.inr ⟨dm, List.mem_cons_of_mem m hdm, hrec⟩

/-- C5: a match (outside comments) with a missing or non-integer required
parameter contributes exactly one error — carrying the match's computed line
number in its message — and no record, scanning going on with the remaining
matches by the fold structure; and every record the parser ever creates has
year, month and day obtained from successful integer parses. -/
theorem scanStep_required_params :
    (∀ (content : List Char) (acc : ParseResult) (m : DMatch),
      isInsideComment content m.index = false →
      (jsTruthyL (parseNamedParameter m.inner "year".data) = false
       ∨ jsTruthyL (parseNamedParameter m.inner "month".data) = false
       ∨ jsTruthyL (parseNamedParameter m.inner "day".data) = false
       ∨ parseIntJS ((parseNamedParameter m.inner "year".data).getD []) = none
       ∨ parseIntJS ((parseNamedParameter m.inner "month".data).getD []) = none
       ∨ parseIntJS ((parseNamedParameter m.inner "day".data).getD []) = none) →
      (scanStep content acc m).annotations = acc.annotations ∧
      ∃ e, (scanStep content acc m).errors = acc.errors ++ [e] ∧
        (e = msgMissingParams content m.index ∨ e = msgInvalidValues content m.index))
    ∧ (∀ (filePath : String) (content : List Char) (r : DeadlineAnn),
        r ∈ (parseDartContent filePath content).annotations →
        ∃ dm ∈ findDeadlineMatches content, recFromMatch dm r) := by
  constructor
  · intro content acc m hcom hbad
    unfold scanStep
    rw [if_neg (by simp [hcom])]
    dsimp only
    by_cases hb : (!jsTruthyL (parseNamedParameter m.inner "year".data)
        || !jsTruthyL (parseNamedParameter m.inner "month".data)
        || !jsTruthyL (parseNamedParameter m.inner "day".data)) = true
    · rw [if_pos hb]
      exact ⟨rfl, msgMissingParams content m.index, rfl, Or.inl rfl⟩
    · rw [if_neg hb]
      have ht1 : jsTruthyL (parseNamedParameter m.inner "year".data) = true := by
        cases h : jsTruthyL (parseNamedParameter m.inner "year".data)
        · exact absurd (by simp [h]) hb
        · rfl
      have ht2 : jsTruthyL (parseNamedParameter m.inner "month".data) = true := by
        cases h : jsTruthyL (parseNamedParameter m.inner "month".data)
        · exact absurd (by simp [h]) hb
        · rfl
      have ht3 : jsTruthyL (parseNamedParameter m.inner "day".data) = true := by
        cases h : jsTruthyL (parseNamedParameter m.inner "day".data)
        · exact absurd (by simp [h]) hb
        · rfl
      rcases hy : parseIntJS ((parseNamedParameter m.inner "year".data).getD []) with _ | y <;>
        rcases hmo : parseIntJS ((parseNamedParameter m.inner "month".data).getD []) with _ | mo <;>
          rcases hd : parseIntJS ((parseNamedParameter m.inner "day".data).getD []) with _ | d
      · exact ⟨rfl, msgInvalidValues content m.index, rfl, Or.inr rfl⟩
      · exact ⟨rfl, msgInvalidValues content m.index, rfl, Or.inr rfl⟩
      · exact ⟨rfl, msgInvalidValues content m.index, rfl, Or.inr rfl⟩
      · exact ⟨rfl, msgInvalidValues content m.index, rfl, Or.inr rfl⟩
      · exact ⟨rfl, msgInvalidValues content m.index, rfl, Or.inr rfl⟩
      · exact ⟨rfl, msgInvalidValues content m.index, rfl, Or.inr rfl⟩
      · exact ⟨rfl, msgInvalidValues content m.index, rfl, Or.inr rfl⟩
      · exfalso
        rcases hbad with h | h | h | h | h | h <;>
          simp [ht1, ht2, ht3, hy, hmo, hd] at h
  · intro filePath content r h
    unfold parseDartContent at h
    rcases foldl_scanStep_mem content _ _ r h with hin | hgood
    · simp at hin
    · exact hgood

/-- C5 witness: an annotation whose `year` is a quoted non-number is caught
at the integer check: the step appends one line-tagged error and no record,
and the whole parse of the document yields that error only. -/
theorem scanStep_required_params_witness :
    ((scanStep "@Deadline(year: \"x\", month: 1, day: 2)\nclass A \x7b\x7d".data
        { filePath := "w.dart", annotations := [], errors := [] }
        { index := 0, inner := "year: \"x\", month: 1, day: 2".data, len := 38 }).annotations
      = ({ filePath := "w.dart", annotations := [], errors := [] } : ParseResult).annotations
     ∧ ∃ e, (scanStep "@Deadline(year: \"x\", month: 1, day: 2)\nclass A \x7b\x7d".data
        { filePath := "w.dart", annotations := [], errors := [] }
        { index := 0, inner := "year: \"x\", month: 1, day: 2".data, len := 38 }).errors
      = ({ filePath := "w.dart", annotations := [], errors := [] } : ParseResult).errors ++ [e]
     ∧ (e = msgMissingParams "@Deadline(year: \"x\", month: 1, day: 2)\nclass A \x7b\x7d".data 0
        ∨ e = msgInvalidValues "@Deadline(year: \"x\", month: 1, day: 2)\nclass A \x7b\x7d".data 0))
    ∧ parseDartContent "w.dart" "@Deadline(year: \"x\", month: 1, day: 2)\nclass A \x7b\x7d".data
      = { filePath := "w.dart", annotations := [],
          errors := ["Invalid @Deadline at line 1: invalid date values"] } :=
  ⟨scanStep_required_params.1 _ _ _ (by decide) (by decide), by decide⟩

/-- Brace balance of the empty text. -/
lemma braceBalance_nil : braceBalance [] = 0 := by decide

/-- Brace balance across an opening brace. -/
lemma braceBalance_cons_open (l : List Char) :
    braceBalance (obrace :: l) = 1 + braceBalance l := by
  unfold braceBalance
  rw [List.count_cons_self, List.count_cons_of_ne (by decide : cbrace ≠ obrace)]
  push_cast
  ring

/-- Brace balance across a closing brace. -/
lemma braceBalance_cons_close (l : List Char) :
    braceBalance (cbrace :: l) = braceBalance l - 1 := by
  unfold braceBalance
  rw [List.count_cons_self, List.count_cons_of_ne (by decide : obrace ≠ cbrace)]
  push_cast
  ring

/-- Brace balance across any other character. -/
lemma braceBalance_cons_other (c : Char) (l : List Char) (h1 : ¬ c = obrace)
    (h2 : ¬ c = cbrace) : braceBalance (c :: l) = braceBalance l := by
  unfold braceBalance
  rw [List.count_cons_of_ne (Ne.symm h1), List.count_cons_of_ne (Ne.symm h2)]

/-- One step of the `ebbLoop` scan. -/
lemma ebbLoop_cons (c : Char) (rest : List Char) (d : Int) (st : Bool) :
    ebbLoop (c :: rest) d st =
      if c == obrace then c :: ebbLoop rest (d + 1) true
      else if c == cbrace then
        if st && d - 1 == 0 then [c]
        else c :: ebbLoop rest (d - 1) st
      else c :: ebbLoop rest d st := rfl

/-- The scan of `ebbLoop`, entered with depth `d` and opened-flag `st`,
stops exactly at the first position satisfying its break condition: the
output is the input truncated just after that position. -/
lemma ebbLoop_take :
    ∀ (cs : List Char) (d : Int) (st : Bool) (k : Nat),
      stClosesAt cs d st k → (∀ j, j < k → ¬ stClosesAt cs d st j) →
      ebbLoop cs d st = cs.take (k + 1) := by
  intro cs
  induction cs with
  | nil =>
    intro d st k hk _
    obtain ⟨hk1, -, -⟩ := hk
    rw [List.getD_nil] at hk1
    exact absurd hk1 (by decide)
  | cons c rest ih =>
    intro d st k hk hleast
    obtain ⟨hk1, hk2, hk3⟩ := hk
    by_cases hco : c = obrace
    · cases k with
      | zero =>
        rw [List.getD_cons_zero, hco] at hk1
        exact absurd hk1 (by decide)
      | succ k' =>
        have hstep : ebbLoop (c :: rest) d st = c :: ebbLoop rest (d + 1) true := by
          rw [ebbLoop_cons, if_pos (by simp [hco] : (c == obrace) = true)]
        have hbal : d + 1 + braceBalance (rest.take (k' + 1)) = 0 := by
          rw [List.take_succ_cons, hco, braceBalance_cons_open] at hk3
          omega
        have hcl : stClosesAt rest (d + 1) true k' := by
          refine ⟨?_, Or.inl rfl, hbal⟩
          rw [List.getD_cons_succ] at hk1
          exact hk1
        have hle : ∀ j, j < k' → ¬ stClosesAt rest (d + 1) true j := by
          intro j hj hcontra
          obtain ⟨g1, -, g3⟩ := hcontra
          have hlt : j + 1 < k' + 1 := by omega
          apply hleast (j + 1) hlt
          refine ⟨?_, Or.inr ?_, ?_⟩
          · rw [List.getD_cons_succ]
            exact g1
          · rw [List.take_succ_cons, hco]
            exact List.mem_cons_self obrace (rest.take j)
          · rw [List.take_succ_cons, hco, braceBalance_cons_open]
            omega
        rw [hstep, List.take_succ_cons, ih (d + 1) true k' hcl hle]
    · by_cases hcc : c = cbrace
      · by_cases hbreak : (st && d - 1 == 0) = true
        · have hsplit : st = true ∧ (d - 1 == 0) = true := by
            have h' := hbreak
            simp only [Bool.and_eq_true] at h'
            exact h'
          have hd1 : d - 1 = 0 := by
            have := hsplit.2
            simpa using this
          cases k with
          | zero =>
            rw [ebbLoop_cons, if_neg (by simp [hco] : ¬ (c == obrace) = true),
              if_pos (by simp [hcc] : (c == cbrace) = true), if_pos hbreak,
              List.take_succ_cons, List.take_zero]
          | succ k' =>
            exfalso
            apply hleast 0 (by omega)
            refine ⟨by rw [List.getD_cons_zero]; exact hcc, Or.inl hsplit.1, ?_⟩
            rw [List.take_succ_cons, List.take_zero, hcc, braceBalance_cons_close,
              braceBalance_nil]
            omega
        · cases k with
          | zero =>
            exfalso
            have hst : st = true := by
              rcases hk2 with h | h
              · exact h
              · rw [List.take_zero] at h
                simp at h
            have hd1 : d - 1 = 0 := by
              rw [List.take_succ_cons, List.take_zero, hcc, braceBalance_cons_close,
                braceBalance_nil] at hk3
              omega
            apply hbreak
            rw [hst, hd1]
            rfl
          | succ k' =>
            have hstep : ebbLoop (c :: rest) d st = c :: ebbLoop rest (d - 1) st := by
              rw [ebbLoop_cons, if_neg (by simp [hco] : ¬ (c == obrace) = true),
                if_pos (by simp [hcc] : (c == cbrace) = true), if_neg hbreak]
            have hbal : d - 1 + braceBalance (rest.take (k' + 1)) = 0 := by
              rw [List.take_succ_cons, hcc, braceBalance_cons_close] at hk3
              omega
            have hcl : stClosesAt rest (d - 1) st k' := by
              refine ⟨?_, ?_, hbal⟩
              · rw [List.getD_cons_succ] at hk1
                exact hk1
              · rcases hk2 with h | h
                · exact Or.inl h
                · rw [List.take_succ_cons] at h
                  rcases List.mem_cons.mp h with h' | h'
                  · exact absurd h'.symm hco
                  · exact Or.inr h'
            have hle : ∀ j, j < k' → ¬ stClosesAt rest (d - 1) st j := by
              intro j hj hcontra
              obtain ⟨g1, g2, g3⟩ := hcontra
              have hlt : j + 1 < k' + 1 := by omega
              apply hleast (j + 1) hlt
              refine ⟨?_, ?_, ?_⟩
              · rw [List.getD_cons_succ]
                exact g1
              · rcases g2 with h | h
                · exact Or.inl h
                · refine Or.inr ?_
                  rw [List.take_succ_cons]
                  exact List.mem_cons_of_mem c h
              · rw [List.take_succ_cons, hcc, braceBalance_cons_close]
                omega
            rw [hstep, List.take_succ_cons, ih (d - 1) st k' hcl hle]
      · cases k with
        | zero =>
          rw [List.getD_cons_zero] at hk1
          exact absurd hk1 hcc
        | succ k' =>
          have hstep : ebbLoop (c :: rest) d st = c :: ebbLoop rest d st := by
            rw [ebbLoop_cons, if_neg (by simp [hco] : ¬ (c == obrace) = true),
              if_neg (by simp [hcc] : ¬ (c == cbrace) = true)]
          have hbal : d + braceBalance (rest.take (k' + 1)) = 0 := by
            rw [List.take_succ_cons, braceBalance_cons_other c _ hco hcc] at hk3
            omega
          have hcl : stClosesAt rest d st k' := by
            refine ⟨?_, ?_, hbal⟩
            · rw [List.getD_cons_succ] at hk1
              exact hk1
            · rcases hk2 with h | h
              · exact Or.inl h
              · rw [List.take_succ_cons] at h
                rcases List.mem_cons.mp h with h' | h'
                · exact absurd h'.symm hco
                · exact Or.inr h'
          have hle : ∀ j, j < k' → ¬ stClosesAt rest d st j := by
            intro j hj hcontra
            obtain ⟨g1, g2, g3⟩ := hcontra
            have hlt : j + 1 < k' + 1 := by omega
            apply hleast (j + 1) hlt
            refine ⟨?_, ?_, ?_⟩
            · rw [List.getD_cons_succ]
              exact g1
            · rcases g2 with h | h
              · exact Or.inl h
              · refine Or.inr ?_
                rw [List.take_succ_cons]
                exact List.mem_cons_of_mem c h
            · rw [List.take_succ_cons, braceBalance_cons_other c _ hco hcc]
              omega
          rw [hstep, List.take_succ_cons, ih d st k' hcl hle]

/-- C4: the balanced-brace extractor captures exactly the characters up to
(and including) the first closing brace at which the depth counter — raised
on each opening brace, lowered on each closing brace — returns to zero after
the span has been opened; nested brace pairs therefore stay inside one
complete excerpt that ends at the outer closing brace. -/
theorem extractBalancedBraces_span (cs : List Char) (k : Nat)
    (hk : closesSpanAt cs k) (hleast : ∀ j, j < k → ¬ closesSpanAt cs j) :
    extractBalancedBraces cs 0 = cs.take (k + 1) := by
  unfold extractBalancedBraces
  rw [List.drop_zero]
  apply ebbLoop_take cs 0 false k
  · obtain ⟨h1, h2, h3⟩ := hk
    exact ⟨h1, Or.inr h2, by omega⟩
  · intro j hj hcontra
    apply hleast j hj
    obtain ⟨g1, g2, g3⟩ := hcontra
    rcases g2 with h | h
    · simp at h
    · exact ⟨g1, h, by omega⟩

/-- C4 witness: a class body with a nested brace pair extracts as one
complete excerpt ending at the outer closing brace (position 23), both for
the raw balanced-brace scan and through `extractCodeBlock`'s class branch. -/
theorem extractBalancedBraces_span_witness :
    closesSpanAt "class A \x7b void m() \x7b \x7d \x7d tail".data 23
    ∧ (∀ j, j < 23 → ¬ closesSpanAt "class A \x7b void m() \x7b \x7d \x7d tail".data j)
    ∧ extractBalancedBraces "class A \x7b void m() \x7b \x7d \x7d tail".data 0
        = "class A \x7b void m() \x7b \x7d \x7d".data
    ∧ extractCodeBlock "class A \x7b void m() \x7b \x7d \x7d tail".data 0
        = ("class A \x7b void m() \x7b \x7d \x7d", "A") :=
  ⟨by decide, by decide,
   (extractBalancedBraces_span _ 23 (by decide) (by decide)).trans (by decide),
   by decide⟩

/-- Folding the mention-wrapping match into a map. -/
lemma match_map_mention (o : Option String) :
    (match o with
     | some v => some ("<@" ++ v ++ ">")
     | none => none) = o.map (fun v => "<@" ++ v ++ ">") := by
  cases o <;> rfl

/-- Case form of the option fallback. -/
lemma orElse_cases (x : Option String) (f : Unit → Option String) :
    x.orElse f = match x with | some a => some a | none => f () := by
  cases x <;> rfl

/-- C7: the code's mention resolution agrees everywhere with the
specification's first-match-wins order — (1) the record's own directive,
(2) the GitHub-noreply username of the author email looked up in the map,
(3) the raw author email looked up, (4) the author display name looked up,
(5) nothing. -/
theorem resolveSlackMention_order (a : DeadlineAnn) (config : ActionConfig) :
    resolveSlackMention a config = mentionOrderSpec a config := by
  unfold resolveSlackMention mentionOrderSpec
  rcases hsm : a.slackMention with _ | sm <;>
    rcases hae : a.authorEmail with _ | email <;>
      rcases hau : a.author with _ | name <;>
        dsimp only <;>
          simp only [jsTruthyS, Option.getD_some, Option.getD_none, match_map_mention,
            orElse_cases]
  · rfl
  · by_cases hn : name = "" <;>
      rcases hgn : truthyGet config.githubToSlackMap name with _ | z <;>
        simp_all
  · by_cases he : email = "" <;>
      rcases hgu : extractGitHubUsername email with _ | u <;>
        rcases hgw : truthyGet config.githubToSlackMap email with _ | w <;>
          try by_cases hu : u = "" <;>
            try rcases hgv : truthyGet config.githubToSlackMap u with _ | v
    all_goals simp_all
  · by_cases he : email = "" <;>
      rcases hgu : extractGitHubUsername email with _ | u <;>
        rcases hgw : truthyGet config.githubToSlackMap email with _ | w <;>
          try by_cases hu : u = "" <;>
            try rcases hgv : truthyGet config.githubToSlackMap u with _ | v
    all_goals try by_cases hn : name = ""
    all_goals try rcases hgn : truthyGet config.githubToSlackMap name with _ | z
    all_goals simp_all
  · by_cases hs : sm = "" <;> simp_all
  · by_cases hs : sm = ""
    all_goals try by_cases hn : name = ""
    all_goals try rcases hgn : truthyGet config.githubToSlackMap name with _ | z
    all_goals simp_all
  · by_cases hs : sm = ""
    · simp only [hs]
      norm_num
      by_cases he : email = "" <;>
        rcases hgu : extractGitHubUsername email with _ | u <;>
          rcases hgw : truthyGet config.githubToSlackMap email with _ | w <;>
            try by_cases hu : u = "" <;>
              try rcases hgv : truthyGet config.githubToSlackMap u with _ | v
      all_goals simp_all
    · simp_all
  · by_cases hs : sm = ""
    · simp only [hs]
      norm_num
      by_cases he : email = "" <;>
        rcases hgu : extractGitHubUsername email with _ | u <;>
          rcases hgw : truthyGet config.githubToSlackMap email with _ | w <;>
            try by_cases hu : u = "" <;>
              try rcases hgv : truthyGet config.githubToSlackMap u with _ | v
      all_goals try by_cases hn : name = ""
      all_goals try rcases hgn : truthyGet config.githubToSlackMap name with _ | z
      all_goals simp_all
    · simp_all

/-- C6 counterexample: with a custom template missing its closing delimiter,
the composed message is not the default-layout message — templating does not
fail and no fallback happens, so the claim is false as stated. -/
theorem buildCustomSlackMessage_malformed_cex :
    cfgMalformed = { cfgEn with customTemplate := some "\x7b\x7bcount\x7d" }
    ∧ cfgEn.customTemplate = none
    ∧ buildCustomSlackMessage [] cfgMalformed today0
        ≠ buildCustomSlackMessage [] cfgEn today0
    ∧ buildCustomSlackMessage [] cfgMalformed today0
        ≠ buildSlackMessage [] cfgMalformed today0 := by
  refine ⟨rfl, rfl, ?_, ?_⟩
  · decide
  · decide

/-- C6 (amended): the composer falls back to the default layout exactly when
the configured template is falsy (unset or empty); with a truthy template —
malformed or not — substitution is total and never fails, and the result is
the text-only joined render, never the default block layout. -/
theorem buildCustomSlackMessage_fallback :
    (∀ (anns : List DeadlineAnn) (config : ActionConfig) (today : JSDate),
      jsTruthyS config.customTemplate = false →
      buildCustomSlackMessage anns config today = buildSlackMessage anns config today)
    ∧ (∀ (anns : List DeadlineAnn) (config : ActionConfig) (today : JSDate),
      jsTruthyS config.customTemplate = true →
      (buildCustomSlackMessage anns config today).blocks = none ∧
      (buildCustomSlackMessage anns config today).text =
        String.mk (joinBlankLineL (anns.map (renderAnnTemplate config today
          (applyTemplateGlobals anns today (config.customTemplate.getD "").data))))) := by
  constructor
  · intro anns config today h
    unfold buildCustomSlackMessage
    rw [if_pos (by simp [h])]
  · intro anns config today h
    unfold buildCustomSlackMessage
    rw [if_neg (by simp [h])]
    exact ⟨rfl, rfl⟩

/-- The annotation loop is the greedy prefix: it appends exactly the block
groups of the records the greedy count admits. -/
lemma appendAnnBlocks_eq (config : ActionConfig) (today : JSDate) :
    ∀ (l : List DeadlineAnn) (blocks : List SlackBlock),
      appendAnnBlocks config today l blocks =
        (blocks ++ ((l.take (greedyCount config today blocks.length l)).map
          (fun x => buildAnnotationBlocks x config today)).flatten,
         greedyCount config today blocks.length l) := by
  intro l
  induction l with
  | nil =>
    intro blocks
    simp [appendAnnBlocks, greedyCount]
  | cons a rest ih =>
    intro blocks
    by_cases hgt : blocks.length + (buildAnnotationBlocks a config today).length > maxBlocksJS
    · simp only [appendAnnBlocks, greedyCount]
      rw [if_pos hgt, if_pos hgt]
      simp
    · simp only [appendAnnBlocks, greedyCount]
      rw [if_neg hgt, if_neg hgt]
      rw [ih (blocks ++ buildAnnotationBlocks a config today)]
      simp [List.take_succ_cons, List.length_append, List.append_assoc]

/-- The greedy count never exceeds the record count. -/
lemma greedyCount_le (config : ActionConfig) (today : JSDate) :
    ∀ (l : List DeadlineAnn) (len : Nat), greedyCount config today len l ≤ l.length := by
  intro l
  induction l with
  | nil => intro len; simp [greedyCount]
  | cons a rest ih =>
    intro len
    simp only [greedyCount]
    split
    · simp
    · have := ih (len + (buildAnnotationBlocks a config today).length)
      simp only [List.length_cons]
      omega

/-- The groups the greedy count admits keep the running block count within
the budget. -/
lemma greedyCount_budget (config : ActionConfig) (today : JSDate) :
    ∀ (l : List DeadlineAnn) (len : Nat), len ≤ maxBlocksJS →
      len + (((l.take (greedyCount config today len l)).map
        (fun x => buildAnnotationBlocks x config today)).flatten).length ≤ maxBlocksJS := by
  intro l
  induction l with
  | nil => intro len hlen; simpa [greedyCount]
  | cons a rest ih =>
    intro len hlen
    simp only [greedyCount]
    split
    · simpa
    · rename_i hfit
      have hih := ih (len + (buildAnnotationBlocks a config today).length) (by omega)
      simp only [List.take_succ_cons, List.map_cons, List.flatten_cons, List.length_append]
      omega

/-- When the greedy count stops early, admitting one more group would
overflow the budget. -/
lemma greedyCount_stop (config : ActionConfig) (today : JSDate) :
    ∀ (l : List DeadlineAnn) (len : Nat),
      greedyCount config today len l < l.length →
      maxBlocksJS < len + (((l.take (greedyCount config today len l + 1)).map
        (fun x => buildAnnotationBlocks x config today)).flatten).length := by
  intro l
  induction l with
  | nil => intro len h; simp [greedyCount] at h
  | cons a rest ih =>
    intro len h
    simp only [greedyCount] at h ⊢
    by_cases hgt : len + (buildAnnotationBlocks a config today).length > maxBlocksJS
    · rw [if_pos hgt]
      simp only [zero_add, List.take_succ_cons, List.take_zero, List.map_cons,
        List.map_nil, List.flatten_cons, List.flatten_nil, List.append_nil,
        List.length_append]
      omega
    · rw [if_neg hgt] at h ⊢
      have hih := ih (len + (buildAnnotationBlocks a config today).length) (by
        simp only [List.length_cons] at h
        omega)
      simp only [List.take_succ_cons, List.map_cons, List.flatten_cons, List.length_append]
      omega

/-- Every per-record block group has at least four blocks. -/
lemma blockGroup_len_ge (a : DeadlineAnn) (config : ActionConfig) (today : JSDate) :
    4 ≤ (buildAnnotationBlocks a config today).length := by
  unfold buildAnnotationBlocks
  dsimp only
  split_ifs <;> simp

/-- A lower bound on the total size of the first `k` block groups. -/
lemma groups_len_lower (config : ActionConfig) (today : JSDate) :
    ∀ (l : List DeadlineAnn) (k : Nat), k ≤ l.length →
      4 * k ≤ (((l.take k).map (fun x => buildAnnotationBlocks x config today)).flatten).length := by
  intro l
  induction l with
  | nil =>
    intro k hk
    have hk0 : k = 0 := by simpa using hk
    subst hk0
    simp
  | cons a rest ih =>
    intro k hk
    cases k with
    | zero => simp
    | succ k' =>
      have h4 := blockGroup_len_ge a config today
      have hih := ih k' (by simpa using hk)
      simp only [List.take_succ_cons, List.map_cons, List.flatten_cons, List.length_append]
      omega

/-- C2: for a non-empty record list the composed message is the header,
summary (total count) and divider followed by the block groups of a prefix
of the records — as many whole groups as keep the running block count within
the fixed maximum of 30 — and, exactly when records were left out, one
trailing notice block for the remaining count; adding the next group would
have exceeded the budget, and with 40 records fewer than 40 groups are
rendered. -/
theorem buildSlackMessage_budget (anns : List DeadlineAnn) (config : ActionConfig)
    (today : JSDate) (h : anns ≠ []) :
    ∃ k, k ≤ anns.length ∧
      (buildSlackMessage anns config today).blocks = some (
        [SlackBlock.header (headerText (MESSAGES config.language).title),
         SlackBlock.sectionText ((MESSAGES config.language).summary anns.length),
         SlackBlock.divider]
        ++ ((anns.take k).map (fun x => buildAnnotationBlocks x config today)).flatten
        ++ (if k < anns.length then
              [SlackBlock.sectionText (truncNotice config.language (anns.length - k))]
            else [])) ∧
      3 + (((anns.take k).map (fun x => buildAnnotationBlocks x config today)).flatten).length
        ≤ maxBlocksJS ∧
      (k < anns.length →
        maxBlocksJS < 3 + (((anns.take (k + 1)).map
          (fun x => buildAnnotationBlocks x config today)).flatten).length) ∧
      (anns.length = 40 → k < anns.length) := by
  refine ⟨greedyCount config today 3 anns, greedyCount_le config today anns 3, ?_, ?_, ?_, ?_⟩
  · unfold buildSlackMessage
    rw [if_neg (fun hh => h (List.length_eq_zero.mp hh))]
    dsimp only
    rw [appendAnnBlocks_eq]
    simp only [List.length_cons, List.length_nil]
    split_ifs <;> simp [List.append_assoc]
  · have := greedyCount_budget config today anns 3 (by simp [maxBlocksJS])
    omega
  · intro hlt
    have := greedyCount_stop config today anns 3 hlt
    omega
  · intro h40
    have hb := greedyCount_budget config today anns 3 (by simp [maxBlocksJS])
    have hl := greedyCount_le config today anns 3
    have hg := groups_len_lower config today anns (greedyCount config today 3 anns) hl
    simp only [maxBlocksJS] at hb
    omega

/-- C2 witness: forty identical matching records against the English
configuration compose to a budgeted message per the theorem. -/
theorem buildSlackMessage_budget_witness :
    ∃ k, k ≤ (List.replicate 40 (annFix today0)).length ∧
      (buildSlackMessage (List.replicate 40 (annFix today0)) cfgEn today0).blocks = some (
        [SlackBlock.header (headerText (MESSAGES cfgEn.language).title),
         SlackBlock.sectionText
           ((MESSAGES cfgEn.language).summary (List.replicate 40 (annFix today0)).length),
         SlackBlock.divider]
        ++ (((List.replicate 40 (annFix today0)).take k).map
             (fun x => buildAnnotationBlocks x cfgEn today0)).flatten
        ++ (if k < (List.replicate 40 (annFix today0)).length then
              [SlackBlock.sectionText (truncNotice cfgEn.language
                ((List.replicate 40 (annFix today0)).length - k))]
            else [])) ∧
      3 + ((((List.replicate 40 (annFix today0)).take k).map
            (fun x => buildAnnotationBlocks x cfgEn today0)).flatten).length ≤ maxBlocksJS ∧
      (k < (List.replicate 40 (annFix today0)).length →
        maxBlocksJS < 3 + ((((List.replicate 40 (annFix today0)).take (k + 1)).map
          (fun x => buildAnnotationBlocks x cfgEn today0)).flatten).length) ∧
      ((List.replicate 40 (annFix today0)).length = 40 →
        k < (List.replicate 40 (annFix today0)).length) :=
  buildSlackMessage_budget (List.replicate 40 (annFix today0)) cfgEn today0 (by decide)
